import Mathlib

/-!
Verification development for the node quality filtering engine
(node_quality_filter.py).  The Python source is embedded shallowly:
pure functions become Lean functions, byte strings become lists of
naturals, fallible operations return Option (the source catches every
per-item exception locally and converts it to a None / fall-through),
and the stateful batch loop becomes explicit state passing with fuel.
-/

namespace NQF

/-! ### Basic string helpers (Python str operations on lists of chars) -/

/-- Does the pattern occur as a leading segment of the list? -/
def listStarts : List Char → List Char → Bool
  | [], _ => true
  | _ :: _, [] => false
  | p :: ps, c :: cs => p == c && listStarts ps cs

/-- Python substring containment (the in operator) on char lists. -/
def hasSubAux (pat : List Char) : List Char → Bool
  | [] => listStarts pat []
  | c :: cs => listStarts pat (c :: cs) || hasSubAux pat cs

/-- Python substring containment for strings: pat in s. -/
def strHasSub (pat s : String) : Bool := hasSubAux pat.data s.data

/-- Python str.split(sep) on char lists: split on every non-overlapping
occurrence of the separator, left to right.  Fuel-driven scan; fuel one
more than the list length always suffices for a non-empty separator. -/
def splitSubAux (pat : List Char) : Nat → List Char → List Char → List (List Char)
  | 0, acc, s => [acc.reverse ++ s]
  | fuel + 1, acc, s =>
    if pat ≠ [] ∧ listStarts pat s then
      acc.reverse :: splitSubAux pat fuel [] (s.drop pat.length)
    else
      match s with
      | [] => [acc.reverse]
      | c :: cs => splitSubAux pat fuel (c :: acc) cs

/-- Python s.split(sep) for strings. -/
def pySplit (s sep : String) : List String :=
  (splitSubAux sep.data (s.data.length + 1) [] s.data).map List.asString

/-- Python s.rsplit(sep, 1) when sep occurs: the text before the last
occurrence of the character and the text after it. -/
def rsplitChar (sep : Char) (s : String) : Option (String × String) :=
  let r := s.data.reverse
  let post := r.takeWhile (fun c => c ≠ sep)
  let rest := r.drop post.length
  match rest with
  | [] => none
  | _ :: pre => some ((pre.reverse).asString, (post.reverse).asString)

/-- Python str.lower restricted to ASCII case folding. -/
def pyLower (s : String) : String := (s.data.map Char.toLower).asString

/-- Python str.replace: every non-overlapping occurrence of the pattern,
left to right, is replaced. -/
def pyReplace (s pat new : String) : String :=
  String.intercalate new (pySplit s pat)

/-- Numeric value of a list of decimal digit characters. -/
def natOfDigits (cs : List Char) : Nat :=
  cs.foldl (fun a c => a * 10 + (c.toNat - 48)) 0

/-- Decimal digits of the Python int literal grammar: digits possibly
separated by single underscores (1_0 is valid, 1__0 or _1 or 1_ is not). -/
def pyDigitsU : List Char → Option (List Char)
  | [] => none
  | c :: cs =>
    if c.isDigit then
      match cs with
      | [] => some [c]
      | '_' :: cs2 => (pyDigitsU cs2).map (fun ds => c :: ds)
      | c2 :: cs2 => (pyDigitsU (c2 :: cs2)).map (fun ds => c :: ds)
    else none
termination_by l => l.length
decreasing_by all_goals simp only [List.length_cons]; omega

/-- Python int(str): strip whitespace, optional sign, decimal digits with
optional single underscores between digits; none models a ValueError. -/
def pyIntOfStr (s : String) : Option Int :=
  let cs := (s.data.dropWhile Char.isWhitespace).reverse.dropWhile Char.isWhitespace
  let cs := cs.reverse
  match cs with
  | '-' :: rest => (pyDigitsU rest).map (fun ds => -(natOfDigits ds : Int))
  | '+' :: rest => (pyDigitsU rest).map (fun ds => (natOfDigits ds : Int))
  | rest => (pyDigitsU rest).map (fun ds => (natOfDigits ds : Int))

/-! ### The regular-expression searches used by the per-protocol parsers.
Each Python re.search is embedded as a direct left-to-right scan that
reproduces the match the backtracking engine finds. -/

/-- Is the char one of the host delimiters : / ? # used in the patterns. -/
def isDelim (c : Char) : Bool := c == ':' || c == '/' || c == '?' || c == '#'

/-- Attempt of the trojan/vless pattern at one start position:
the pattern is scheme-arrow, then one or more non-at chars, then the at
sign, then the captured host (non-delimiter chars, at least one), then an
optional colon and optional captured digits. -/
def tvTry (s : List Char) : Option (String × Option Nat) :=
  if listStarts ("://".data) s then
    let rest := s.drop 3
    let pre := rest.takeWhile (fun c => c ≠ '@')
    if pre = [] then none
    else
      match rest.drop pre.length with
      | [] => none
      | _ :: afterAt =>
        let host := afterAt.takeWhile (fun c => !isDelim c)
        if host = [] then none
        else
          let r2 := afterAt.drop host.length
          let r3 := if r2.head? = some ':' then r2.tail else r2
          let digits := r3.takeWhile Char.isDigit
          some (host.asString, if digits = [] then none else some (natOfDigits digits))
  else none

/-- Leftmost search for the trojan/vless pattern. -/
def tvScan : List Char → Option (String × Option Nat)
  | [] => none
  | c :: cs =>
    match tvTry (c :: cs) with
    | some r => some r
    | none => tvScan cs

/-- Attempt of the ss fallback pattern after an at sign: captured host is
one or more non-colon chars, then a colon, then one or more captured
digits. -/
def ssTry (afterAt : List Char) : Option (String × Nat) :=
  let host := afterAt.takeWhile (fun c => c ≠ ':')
  if host = [] then none
  else
    match afterAt.drop host.length with
    | [] => none
    | _ :: r2 =>
      let digits := r2.takeWhile Char.isDigit
      if digits = [] then none else some (host.asString, natOfDigits digits)

/-- Leftmost search for the ss fallback pattern (at sign, host, colon,
digits). -/
def ssScan : List Char → Option (String × Nat)
  | [] => none
  | c :: cs =>
    match (if c = '@' then ssTry cs else none) with
    | some r => some r
    | none => ssScan cs

/-- Attempt of the hysteria pattern after an at sign: captured host is one
or more non-delimiter chars, then optional colon and optional digits. -/
def hyTryAt (afterAt : List Char) : Option (String × Option Nat) :=
  let host := afterAt.takeWhile (fun c => !isDelim c)
  if host = [] then none
  else
    let r2 := afterAt.drop host.length
    let r3 := if r2.head? = some ':' then r2.tail else r2
    let digits := r3.takeWhile Char.isDigit
    some (host.asString, if digits = [] then none else some (natOfDigits digits))

/-- Leftmost search for the hysteria at-sign pattern. -/
def hyScanAt : List Char → Option (String × Option Nat)
  | [] => none
  | c :: cs =>
    match (if c = '@' then hyTryAt cs else none) with
    | some r => some r
    | none => hyScanAt cs

/-- Leftmost search for the hysteria scheme pattern (scheme-arrow, host,
optional colon and digits). -/
def hyScanScheme : List Char → Option (String × Option Nat)
  | [] => none
  | c :: cs =>
    match (if listStarts ("://".data) (c :: cs) then hyTryAt ((c :: cs).drop 3) else none) with
    | some r => some r
    | none => hyScanScheme cs

/-! ### Python base64.b64decode (validate false) and bytes.decode utf-8
with errors ignore, as used by the vmess and ss parsers. -/

/-- Value of a base64 alphabet character. -/
def b64CharVal (c : Char) : Option Nat :=
  if 'A' ≤ c ∧ c ≤ 'Z' then some (c.toNat - 65)
  else if 'a' ≤ c ∧ c ≤ 'z' then some (c.toNat - 97 + 26)
  else if '0' ≤ c ∧ c ≤ '9' then some (c.toNat - 48 + 52)
  else if c = '+' then some 62
  else if c = '/' then some 63
  else none

/-- Decode base64 data characters into bytes: full quadruples give three
bytes, a trailing pair gives one, a trailing triple gives two, a single
leftover character is an error. -/
def b64Groups : List Char → Option (List Nat)
  | [] => some []
  | [c0, c1] => do
    let v0 ← b64CharVal c0
    let v1 ← b64CharVal c1
    return [(v0 * 64 + v1) / 16]
  | [c0, c1, c2] => do
    let v0 ← b64CharVal c0
    let v1 ← b64CharVal c1
    let v2 ← b64CharVal c2
    let n := v0 * 4096 + v1 * 64 + v2
    return [n / 1024, n / 4 % 256]
  | c0 :: c1 :: c2 :: c3 :: rest => do
    let v0 ← b64CharVal c0
    let v1 ← b64CharVal c1
    let v2 ← b64CharVal c2
    let v3 ← b64CharVal c3
    let n := v0 * 262144 + v1 * 4096 + v2 * 64 + v3
    let bs ← b64Groups rest
    return n / 65536 :: n / 256 % 256 :: n % 256 :: bs
  | [_] => none

/-- Python base64.b64decode with the default validate false: characters
outside the alphabet are discarded, data after the first padding sign is
discarded, and the remaining length must be consistent (a completely
unpadded string must be a multiple of four, one leftover character is an
error). -/
def pyB64Decode (s : String) : Option (List Nat) :=
  let filtered := s.data.filter (fun c => (b64CharVal c).isSome || c == '=')
  let body := filtered.takeWhile (fun c => c ≠ '=')
  if body.length = filtered.length ∧ body.length % 4 ≠ 0 then none
  else b64Groups body

/-- Padding normalization done by the source before decoding: if the
length is not a multiple of four, append equals signs up to one. -/
def padB64 (s : String) : String :=
  let m := s.length % 4
  if m = 0 then s else s ++ String.mk (List.replicate (4 - m) '=')

/-- Is the byte a utf-8 continuation byte? -/
def isContB (b : Nat) : Bool := 128 ≤ b && b ≤ 191

/-- Utf-8 decoding with errors ignore: invalid sequences are skipped (the
valid prefix of a truncated sequence is consumed, as Python does). -/
def utf8Aux : Nat → List Nat → List Char
  | 0, _ => []
  | _ + 1, [] => []
  | fuel + 1, b :: rest =>
    if b < 128 then Char.ofNat b :: utf8Aux fuel rest
    else if 194 ≤ b && b ≤ 223 then
      match rest with
      | b1 :: r2 =>
        if isContB b1 then Char.ofNat ((b - 192) * 64 + (b1 - 128)) :: utf8Aux fuel r2
        else utf8Aux fuel rest
      | [] => []
    else if 224 ≤ b && b ≤ 239 then
      let lo1 := if b = 224 then 160 else 128
      let hi1 := if b = 237 then 159 else 191
      match rest with
      | b1 :: r2 =>
        if lo1 ≤ b1 && b1 ≤ hi1 then
          match r2 with
          | b2 :: r3 =>
            if isContB b2 then
              Char.ofNat ((b - 224) * 4096 + (b1 - 128) * 64 + (b2 - 128)) :: utf8Aux fuel r3
            else utf8Aux fuel r2
          | [] => []
        else utf8Aux fuel rest
      | [] => []
    else if 240 ≤ b && b ≤ 244 then
      let lo1 := if b = 240 then 144 else 128
      let hi1 := if b = 244 then 143 else 191
      match rest with
      | b1 :: r2 =>
        if lo1 ≤ b1 && b1 ≤ hi1 then
          match r2 with
          | b2 :: r3 =>
            if isContB b2 then
              match r3 with
              | b3 :: r4 =>
                if isContB b3 then
                  Char.ofNat ((b - 240) * 262144 + (b1 - 128) * 4096 + (b2 - 128) * 64 + (b3 - 128))
                    :: utf8Aux fuel r4
                else utf8Aux fuel r3
              | [] => []
            else utf8Aux fuel r2
          | [] => []
        else utf8Aux fuel rest
      | [] => []
    else utf8Aux fuel rest

/-- Python bytes.decode(utf-8, errors=ignore). -/
def pyUtf8Ignore (bs : List Nat) : String := (utf8Aux (bs.length + 1) bs).asString

/-! ### A shallow model of json.loads, needed by the vmess parser. -/

/-- Values produced by json.loads.  Floating point literals are carried as
exact rationals (the decimal value of the literal). -/
inductive Json where
  | jnull
  | jbool (b : Bool)
  | jint (n : Int)
  | jfloat (q : Rat)
  | jnan
  | jinf (neg : Bool)
  | jstr (s : String)
  | jarr (xs : List Json)
  | jobj (kvs : List (String × Json))

/-- Hexadecimal digit value. -/
def hexVal (c : Char) : Option Nat :=
  if '0' ≤ c ∧ c ≤ '9' then some (c.toNat - 48)
  else if 'a' ≤ c ∧ c ≤ 'f' then some (c.toNat - 87)
  else if 'A' ≤ c ∧ c ≤ 'F' then some (c.toNat - 55)
  else none

/-- Whitespace characters recognized by the json scanner. -/
def jsonWs (c : Char) : Bool := c == ' ' || c == '\t' || c == '\n' || c == '\r'

/-- Drop leading json whitespace. -/
def skipWs (cs : List Char) : List Char := cs.dropWhile jsonWs

/-- Body of a json string after the opening quote: returns the decoded
characters and the input after the closing quote.  Unescaped control
characters and unknown escapes are errors; surrogate escape pairs are
combined; a lone surrogate (representable in Python, not as a Lean Char)
degrades to the null character. -/
def jsonStrBody : Nat → List Char → Option (List Char × List Char)
  | 0, _ => none
  | fuel + 1, cs =>
    match cs with
    | [] => none
    | '"' :: r => some ([], r)
    | '\\' :: e :: r =>
      if e = 'u' then
        match r with
        | h1 :: h2 :: h3 :: h4 :: r2 => do
          let v1 ← hexVal h1
          let v2 ← hexVal h2
          let v3 ← hexVal h3
          let v4 ← hexVal h4
          let v := v1 * 4096 + v2 * 256 + v3 * 16 + v4
          if 55296 ≤ v ∧ v ≤ 56319 then
            match r2 with
            | '\\' :: 'u' :: g1 :: g2 :: g3 :: g4 :: r3 =>
              match hexVal g1, hexVal g2, hexVal g3, hexVal g4 with
              | some w1, some w2, some w3, some w4 =>
                let w := w1 * 4096 + w2 * 256 + w3 * 16 + w4
                if 56320 ≤ w ∧ w ≤ 57343 then
                  let cp := 65536 + (v - 55296) * 1024 + (w - 56320)
                  (jsonStrBody fuel r3).map (fun p => (Char.ofNat cp :: p.1, p.2))
                else (jsonStrBody fuel r2).map (fun p => (Char.ofNat v :: p.1, p.2))
              | _, _, _, _ => (jsonStrBody fuel r2).map (fun p => (Char.ofNat v :: p.1, p.2))
            | _ => (jsonStrBody fuel r2).map (fun p => (Char.ofNat v :: p.1, p.2))
          else (jsonStrBody fuel r2).map (fun p => (Char.ofNat v :: p.1, p.2))
        | _ => none
      else
        let esc : Option Char :=
          if e = '"' then some '"' else if e = '\\' then some '\\'
          else if e = '/' then some '/' else if e = 'b' then some (Char.ofNat 8)
          else if e = 'f' then some (Char.ofNat 12) else if e = 'n' then some '\n'
          else if e = 'r' then some '\r' else if e = 't' then some '\t' else none
        match esc with
        | some c2 => (jsonStrBody fuel r).map (fun p => (c2 :: p.1, p.2))
        | none => none
    | ['\\'] => none
    | c :: r =>
      if c.toNat < 32 then none
      else (jsonStrBody fuel r).map (fun p => (c :: p.1, p.2))

/-- Split off a run of decimal digits. -/
def numDigits (cs : List Char) : List Char × List Char :=
  (cs.takeWhile Char.isDigit, cs.dropWhile Char.isDigit)

/-- Integer part of the json number grammar: a lone zero, or a nonzero
digit followed by digits. -/
def jsonIntPart : List Char → Option (List Char × List Char)
  | [] => none
  | c :: cs =>
    if c = '0' then some ([c], cs)
    else if c.isDigit then
      let (ds, rest) := numDigits cs
      some (c :: ds, rest)
    else none

/-- Exact rational value of a scientific mantissa and decimal exponent. -/
def ratOfSci (m : Int) (e : Int) : Rat :=
  if 0 ≤ e then (m : Rat) * ((10 : Rat) ^ e.toNat) else (m : Rat) / ((10 : Rat) ^ (-e).toNat)

/-- Number continuation of the json grammar after an optional minus sign:
integer part, optional fraction, optional exponent.  A literal without
fraction and exponent is an int, otherwise a float. -/
def jsonNumTail (neg : Bool) (cs : List Char) : Option (Json × List Char) := do
  let (ip, rest) ← jsonIntPart cs
  let fr : Option (List Char) × List Char :=
    match rest with
    | '.' :: r =>
      let (ds, r2) := numDigits r
      if ds = [] then (none, rest) else (some ds, r2)
    | _ => (none, rest)
  let (frac, rest2) := fr
  let exr : Option (Bool × List Char) × List Char :=
    match rest2 with
    | e :: r =>
      if e = 'e' ∨ e = 'E' then
        match r with
        | '+' :: r2 =>
          let (ds, r3) := numDigits r2
          if ds = [] then (none, rest2) else (some (false, ds), r3)
        | '-' :: r2 =>
          let (ds, r3) := numDigits r2
          if ds = [] then (none, rest2) else (some (true, ds), r3)
        | _ =>
          let (ds, r3) := numDigits r
          if ds = [] then (none, rest2) else (some (false, ds), r3)
      else (none, rest2)
    | [] => (none, rest2)
  let (ex, rest3) := exr
  let sign : Int := if neg then -1 else 1
  match frac, ex with
  | none, none => some (Json.jint (sign * (natOfDigits ip : Int)), rest3)
  | _, _ =>
    let fds := frac.getD []
    let mant : Int := sign * (natOfDigits (ip ++ fds) : Int)
    let eVal : Int :=
      match ex with
      | some (en, eds) => if en then -(natOfDigits eds : Int) else (natOfDigits eds : Int)
      | none => 0
    some (Json.jfloat (ratOfSci mant (eVal - (fds.length : Int))), rest3)

mutual

/-- One json value at the head of the input (whitespace allowed). -/
def jsonVal : Nat → List Char → Option (Json × List Char)
  | 0, _ => none
  | fuel + 1, cs =>
    match skipWs cs with
    | [] => none
    | c :: rest =>
      if c = '"' then (jsonStrBody fuel rest).map (fun p => (Json.jstr p.1.asString, p.2))
      else if c = '[' then jsonArrAfter fuel rest
      else if c = Char.ofNat 123 then jsonObjAfter fuel rest
      else if c = 't' then
        if listStarts ("rue".data) rest then some (Json.jbool true, rest.drop 3) else none
      else if c = 'f' then
        if listStarts ("alse".data) rest then some (Json.jbool false, rest.drop 4) else none
      else if c = 'n' then
        if listStarts ("ull".data) rest then some (Json.jnull, rest.drop 3) else none
      else if c = 'N' then
        if listStarts ("aN".data) rest then some (Json.jnan, rest.drop 2) else none
      else if c = 'I' then
        if listStarts ("nfinity".data) rest then some (Json.jinf false, rest.drop 7) else none
      else if c = '-' then
        match rest with
        | 'I' :: r2 => if listStarts ("nfinity".data) r2 then some (Json.jinf true, r2.drop 7) else none
        | _ => jsonNumTail true rest
      else jsonNumTail false (c :: rest)

/-- Continuation after an opening bracket. -/
def jsonArrAfter : Nat → List Char → Option (Json × List Char)
  | 0, _ => none
  | fuel + 1, cs =>
    match skipWs cs with
    | ']' :: r => some (Json.jarr [], r)
    | cs2 => do
      let (v, r) ← jsonVal fuel cs2
      jsonArrRest fuel [v] r

/-- Further array elements after at least one element. -/
def jsonArrRest : Nat → List Json → List Char → Option (Json × List Char)
  | 0, _, _ => none
  | fuel + 1, acc, cs =>
    match skipWs cs with
    | ',' :: r => do
      let (v, r2) ← jsonVal fuel r
      jsonArrRest fuel (v :: acc) r2
    | ']' :: r => some (Json.jarr acc.reverse, r)
    | _ => none

/-- Continuation after an opening curly bracket. -/
def jsonObjAfter : Nat → List Char → Option (Json × List Char)
  | 0, _ => none
  | fuel + 1, cs =>
    match skipWs cs with
    | c :: r =>
      if c = Char.ofNat 125 then some (Json.jobj [], r)
      else if c = '"' then do
        let (k, r2) ← jsonStrBody fuel r
        jsonObjPair fuel [] k.asString r2
      else none
    | [] => none

/-- Continuation after an object key: colon, value, then more pairs. -/
def jsonObjPair : Nat → List (String × Json) → String → List Char → Option (Json × List Char)
  | 0, _, _, _ => none
  | fuel + 1, acc, k, cs =>
    match skipWs cs with
    | ':' :: r => do
      let (v, r2) ← jsonVal fuel r
      jsonObjRest fuel ((k, v) :: acc) r2
    | _ => none

/-- Continuation after a completed object pair. -/
def jsonObjRest : Nat → List (String × Json) → List Char → Option (Json × List Char)
  | 0, _, _ => none
  | fuel + 1, acc, cs =>
    match skipWs cs with
    | c :: r =>
      if c = Char.ofNat 125 then some (Json.jobj acc.reverse, r)
      else if c = ',' then
        match skipWs r with
        | '"' :: r2 => do
          let (k, r3) ← jsonStrBody fuel r2
          jsonObjPair fuel acc k.asString r3
        | _ => none
      else none
    | [] => none

end

/-- Python json.loads: a single value with only whitespace around it. -/
def jsonLoads (s : String) : Option Json := do
  let (v, rest) ← jsonVal (4 * s.length + 16) s.data
  if skipWs rest = [] then some v else none

/-- Python dict lookup built by json.loads: the last duplicate key wins. -/
def objGet? (kvs : List (String × Json)) (k : String) : Option Json :=
  (kvs.reverse.find? (fun kv => kv.1 == k)).map (·.2)

/-- Python truthiness of a loaded json value. -/
def pyTruthy : Json → Bool
  | .jnull => false
  | .jbool b => b
  | .jint n => n != 0
  | .jfloat q => q != 0
  | .jnan => true
  | .jinf _ => true
  | .jstr s => s != ""
  | .jarr xs => !xs.isEmpty
  | .jobj kvs => !kvs.isEmpty

/-- Truncation of a rational toward zero, the behaviour of Python int()
on a float. -/
def ratTrunc (q : Rat) : Int := q.num.tdiv (q.den : Int)

/-- Python int() applied to a loaded json value; none models a raised
ValueError or TypeError. -/
def pyIntOfJson : Json → Option Int
  | .jint n => some n
  | .jfloat q => some (ratTrunc q)
  | .jnan => none
  | .jinf _ => none
  | .jstr s => pyIntOfStr s
  | .jbool b => some (if b then 1 else 0)
  | .jnull => none
  | .jarr _ => none
  | .jobj _ => none

/-- Comma-and-space joining used by Python container repr. -/
def commaJoin : List String → String
  | [] => ""
  | [s] => s
  | s :: rest => s ++ ", " ++ commaJoin rest

/-- Decimal rendering of an exact float value (Python repr of a float
whose value is an exact decimal). -/
def floatReprAux : Nat → Nat → Nat → Rat → Option String
  | 0, _, _, _ => none
  | fuel + 1, k, pow, q =>
    if pow % q.den = 0 then
      let scaled := q.num * ((pow / q.den : Nat) : Int)
      let a := scaled.natAbs
      let sgn := if scaled < 0 then "-" else ""
      if k = 0 then some (sgn ++ toString a ++ ".0")
      else
        let ip := a / 10 ^ k
        let fp := a % 10 ^ k
        let fs := toString fp
        let fs := String.mk (List.replicate (k - fs.length) '0') ++ fs
        some (sgn ++ toString ip ++ "." ++ fs)
    else floatReprAux fuel (k + 1) (pow * 10) q

/-- Decimal rendering entry point. -/
def floatRepr (q : Rat) : String := (floatReprAux 500 0 1 q).getD "0.0"

/-- Python str() of a loaded json value (repr for nested elements). -/
def pyStrF : Nat → Bool → Json → String
  | 0, _, _ => ""
  | fuel + 1, top, v =>
    match v with
    | .jstr s => if top then s else "'" ++ s ++ "'"
    | .jint n => toString n
    | .jbool b => if b then "True" else "False"
    | .jnull => "None"
    | .jnan => "nan"
    | .jinf neg => if neg then "-inf" else "inf"
    | .jfloat q => floatRepr q
    | .jarr xs => "[" ++ commaJoin (xs.map (pyStrF fuel false)) ++ "]"
    | .jobj kvs =>
      String.mk [Char.ofNat 123] ++
        commaJoin (kvs.map (fun kv => "'" ++ kv.1 ++ "': " ++ pyStrF fuel false kv.2)) ++
        String.mk [Char.ofNat 125]

/-! ### The node record and the per-protocol parsers. -/

/-- The node dictionary built by parse_node and mutated downstream.
Optional fields model keys that may be absent or hold a Python None; a
host of none models a falsy host value (None, empty string or zero), a
port of some zero models the literal int zero.  Latency is carried as an
exact rational number of milliseconds. -/
structure Node where
  url : String
  protocol : String
  host : Option String
  port : Option Int
  score : Int
  status : Option String := none
  latency : Option Rat := none
  final_score : Option Int := none
  risk_score : Option Int := none
  country : Option String := none
  isp : Option String := none
  deriving DecidableEq

/-- Protocol priority table of the source (fixed keys and scores). -/
def protocol_scores : List (String × Int) :=
  [("hysteria2", 10), ("hysteria", 9), ("vless", 8), ("trojan", 7),
   ("vmess", 6), ("ss", 5), ("ssr", 4)]

/-- Score lookup; none when the scheme is not a recognized protocol. -/
def protocolScore (p : String) : Option Int :=
  (protocol_scores.find? (fun kv => kv.1 == p)).map (·.2)

/-- Default list of preferred protocols from the source. -/
def preferred_protocols : List String := ["hysteria2", "vless", "trojan", "vmess", "ss"]

/-- Parser for vmess: strip the scheme, base64-decode with padding
normalization, utf-8 decode ignoring errors, json-parse, then read the
add and port entries.  Any failure (a raised exception in the source)
discards both host and port. -/
def _parse_vmess (url : String) : Option String × Option Int :=
  let b := padB64 (pyReplace url "vmess://" "")
  match pyB64Decode b with
  | none => (none, none)
  | some bytes =>
    let jsonStr := pyUtf8Ignore bytes
    match jsonLoads jsonStr with
    | none => (none, none)
    | some (Json.jobj kvs) =>
      let addVal := (objGet? kvs "add").getD (Json.jstr "")
      let host : Option String :=
        if pyTruthy addVal then some (pyStrF (jsonStr.length + 16) true addVal) else none
      match objGet? kvs "port" with
      | some pv =>
        if pyTruthy pv then
          match pyIntOfJson pv with
          | some i => (host, some i)
          | none => (none, none)
        else (host, none)
      | none => (host, none)
    | some _ => (none, none)

/-- Parser for ss and ssr: take the text between the scheme arrow and an
optional fragment, try base64 plus utf-8 decoding and the
method-password-at-host-colon-port shape (rsplit on the last colon), and
fall back to a direct regex search on the raw string. -/
def _parse_ss (url : String) : Option String × Option Int :=
  let content := (pySplit url "://").getD 1 ""
  let content := ((pySplit content "#").headD "")
  let attempt : Option (String × Int) :=
    match pyB64Decode (padB64 content) with
    | none => none
    | some bytes =>
      let decoded := pyUtf8Ignore bytes
      if strHasSub "@" decoded then
        match pySplit decoded "@" with
        | [_, server] =>
          if strHasSub ":" server then
            match rsplitChar ':' server with
            | some (h, p) =>
              match pyIntOfStr p with
              | some pi => some (h, pi)
              | none => none
            | none => none
          else none
        | _ => none
      else none
  match attempt with
  | some (h, p) => (some h, some p)
  | none =>
    match ssScan url.data with
    | some (h, p) => (some h, some (p : Int))
    | none => (none, none)

/-- Parser for trojan and vless: regex search for userinfo, at sign, host
and optional port; a missing port defaults to 443. -/
def _parse_trojan_vless (url : String) : Option String × Option Int :=
  match tvScan url.data with
  | some (h, some p) => (some h, some (p : Int))
  | some (h, none) => (some h, some 443)
  | none => (none, none)

/-- Parser for hysteria and hysteria2: when the string contains an at
sign search for host after it, otherwise search for host after the
scheme arrow; a missing port defaults to 443. -/
def _parse_hysteria (url : String) : Option String × Option Int :=
  let m := if strHasSub "@" url then hyScanAt url.data else hyScanScheme url.data
  match m with
  | some (h, some p) => (some h, some (p : Int))
  | some (h, none) => (some h, some 443)
  | none => (none, none)

/-- Scheme of a url: the lowercased text before the first scheme arrow. -/
def schemeOf (url : String) : String := pyLower ((pySplit url "://").headD "")

/-- Python truthiness of the host slot. -/
def hostTruthy : Option String → Bool
  | some s => s != ""
  | none => false

/-- Python truthiness of the port slot. -/
def portTruthy : Option Int → Bool
  | some p => p != 0
  | none => false

/-- Dispatch on the recognized protocol (the else branch covers the two
hysteria variants, the only remaining members of the protocol table). -/
def parseHostPort (protocol url : String) : Option String × Option Int :=
  if protocol = "vmess" then _parse_vmess url
  else if protocol = "ss" ∨ protocol = "ssr" then _parse_ss url
  else if protocol = "trojan" ∨ protocol = "vless" then _parse_trojan_vless url
  else _parse_hysteria url

/-- Top-level parse: reject a string without the scheme arrow or with an
unrecognized scheme, dispatch to the per-protocol parser, and return the
node only when both host and port are truthy. -/
def parse_node (url : String) : Option Node :=
  if !strHasSub "://" url then none
  else
    match protocolScore (schemeOf url) with
    | none => none
    | some sc =>
      if hostTruthy (parseHostPort (schemeOf url) url).1 &&
          portTruthy (parseHostPort (schemeOf url) url).2 then
        some { url := url, protocol := schemeOf url,
               host := (parseHostPort (schemeOf url) url).1,
               port := (parseHostPort (schemeOf url) url).2, score := sc }
      else none

/-! ### Identity-key deduplication done while parsing the input list. -/

/-- Identity key of a parsed node, the f-string protocol://host:port. -/
def nodeKey (n : Node) : String :=
  n.protocol ++ "://" ++ (n.host.getD "") ++ ":" ++ toString (n.port.getD 0)

/-- The parse-and-dedupe pass of process_nodes: parse each raw string,
skip failures, keep the first occurrence of each identity key. -/
def dedupeAux : List String → List String → List Node
  | _, [] => []
  | seen, u :: us =>
    match parse_node u with
    | none => dedupeAux seen us
    | some n =>
      let k := nodeKey n
      if k ∈ seen then dedupeAux seen us
      else n :: dedupeAux (k :: seen) us

/-- Parse-and-dedupe of a list of raw node strings. -/
def dedupeParsed (urls : List String) : List Node := dedupeAux [] urls

/-- The raw strings kept by the identity-key dedupe (each kept node
preserves its original url verbatim). -/
def dedupeUrls (urls : List String) : List String := (dedupeParsed urls).map (·.url)

/-! ### Scoring and the ranking sort. -/

/-- Composite score: protocol base score, latency bucket adjustment
(mutually exclusive buckets in source order), preferred-protocol bonus;
the result is stored in final_score. -/
def calculate_score (maxLatency : Rat) (preferred : List String) (n : Node) : Node :=
  let s := n.score
  let s :=
    match n.latency with
    | some l =>
      if l < 100 then s + 5
      else if l < 200 then s + 3
      else if l < 300 then s + 1
      else if l > maxLatency then s - 5
      else s
    | none => s
  let s := if n.protocol ∈ preferred then s + 2 else s
  { n with final_score := some s }

/-- First component of the Python sort key (final_score; the source
raises on a node without one, which cannot occur after scoring, so the
default is irrelevant there). -/
def sortKeyFS (n : Node) : Int := n.final_score.getD 0

/-- Effective latency used by the sort key: the get default 999 stands in
for a missing latency. -/
def effLat (n : Node) : Rat := n.latency.getD 999

/-- The sort order of the ranking: list.sort with key (final_score,
negated latency) and reverse true, that is descending lexicographic
order; ties keep the original order (Python sort is stable). -/
def keyGE (a b : Node) : Prop :=
  sortKeyFS b < sortKeyFS a ∨ (sortKeyFS a = sortKeyFS b ∧ -(effLat b) ≤ -(effLat a))

instance : DecidableRel keyGE := fun a b => by unfold keyGE; infer_instance

instance : IsTotal Node keyGE :=
  ⟨by
    intro a b
    unfold keyGE
    rcases lt_trichotomy (sortKeyFS a) (sortKeyFS b) with h | h | h
    · exact Or.inr (Or.inl h)
    · rcases le_total (-(effLat b)) (-(effLat a)) with h2 | h2
      · exact Or.inl (Or.inr ⟨h, h2⟩)
      · exact Or.inr (Or.inr ⟨h.symm, h2⟩)
    · exact Or.inl (Or.inl h)⟩

instance : IsTrans Node keyGE :=
  ⟨by
    intro a b c hab hbc
    unfold keyGE at *
    rcases hab with h1 | ⟨e1, l1⟩
    · rcases hbc with h2 | ⟨e2, _⟩
      · exact Or.inl (h2.trans h1)
      · exact Or.inl (e2 ▸ h1)
    · rcases hbc with h2 | ⟨e2, l2⟩
      · exact Or.inl (e1 ▸ h2)
      · exact Or.inr ⟨e1.trans e2, l2.trans l1⟩⟩

/-- The stable descending sort used at every ranking point. -/
def pySortNodes (l : List Node) : List Node := List.insertionSort keyGE l

/-! ### The batched minimum-guarantee probing loop of process_nodes. -/

/-- Record of one executed batch: the available count and remaining pool
size when the batch was sized, and the number of nodes it probed. -/
structure BatchInfo where
  availBefore : Nat
  remBefore : Nat
  size : Nat
  deriving DecidableEq

/-- Result of the probing loop. -/
structure LoopRes where
  avail : List Node
  tested : Nat
  batches : List BatchInfo
  deriving DecidableEq

/-- Filter applied to each probe outcome: keep the node when the probe
succeeded and its recorded latency does not exceed the maximum (a
missing latency counts as infinite). -/
def keepResult (maxLatency : Rat) : Option Node → Option Node
  | none => none
  | some r =>
    match r.latency with
    | some l => if l ≤ maxLatency then some r else none
    | none => none

/-- The while-true loop of process_nodes: stop when the guarantee is met
or the pool is exhausted; size the batch by the single-pass cap, or by
2000 once any available node has been found; probe the batch; stop after
the batch when the total tested reaches 20000.  Fuel bounds the
iteration count; one more than the pool size suffices whenever the cap
is positive. -/
def probeLoopAux (prober : Node → Option Node) (maxLatency : Rat)
    (minGuarantee maxTestOnce : Nat) :
    Nat → List Node → List Node → Nat → LoopRes
  | 0, avail, _, tested => ⟨avail, tested, []⟩
  | fuel + 1, avail, remaining, tested =>
    if avail.length ≥ minGuarantee then ⟨avail, tested, []⟩
    else if remaining.isEmpty then ⟨avail, tested, []⟩
    else
      let cap := if avail.length > 0 then 2000 else maxTestOnce
      let cur := remaining.take cap
      let rem2 := remaining.drop cap
      let results := cur.filterMap (fun n => keepResult maxLatency (prober n))
      let avail2 := avail ++ results
      let tested2 := tested + cur.length
      let info : BatchInfo := ⟨avail.length, remaining.length, cur.length⟩
      if tested2 ≥ 20000 then ⟨avail2, tested2, [info]⟩
      else
        let r := probeLoopAux prober maxLatency minGuarantee maxTestOnce fuel avail2 rem2 tested2
        ⟨r.avail, r.tested, info :: r.batches⟩

/-- Entry point of the batched probing loop on a candidate pool. -/
def process_nodes_loop (prober : Node → Option Node) (maxLatency : Rat)
    (minGuarantee maxTestOnce : Nat) (pool : List Node) : LoopRes :=
  probeLoopAux prober maxLatency minGuarantee maxTestOnce (pool.length + 1) [] pool 0

/-! ### Risk and region enrichment (check_ip_risk and its helpers). -/

/-- Successful response body of the abuseipdb provider. -/
structure AbuseResp where
  score : Int
  countryCode : Option String
  deriving DecidableEq

/-- Successful response body of the ipapi provider. -/
structure IpapiResp where
  failStatus : Bool
  countryCode : Option String
  ispName : Option String
  mobile : Bool
  proxy : Bool
  hosting : Bool
  deriving DecidableEq

/-- Enrichment configuration (the ip_risk_check section plus the
presence of a provider credential). -/
structure RiskConfig where
  enabled : Bool
  provider : String := "abuseipdb"
  hasApiKey : Bool := false
  check_top_nodes : Nat := 50
  max_risk_score : Int := 50
  exclude_hosting : Bool := true
  exclude_proxy : Bool := false
  exclude_mobile : Bool := false
  deriving DecidableEq

/-- Region policy configuration (the region_limit section). -/
structure RegionConfig where
  enabled : Bool := false
  allowed_countries : List String := []
  blocked_countries : List String := []
  policy : String := "filter"
  deriving DecidableEq

/-- External world seen by one node of the enrichment loop: the resolver
outcome and the provider responses (none models any failure: a raised
request error, a bad status code or a malformed body). -/
structure NodeEnv where
  dnsIp : Option String := none
  abuse : Option AbuseResp := none
  ipapi : Option IpapiResp := none

/-- Hard-coded region restriction: a node whose country is one of CN,
RU, IR, KP fails the check; a missing or falsy country passes. -/
def check_region_restriction (node : Node) : Bool :=
  match node.country with
  | none => true
  | some c =>
    if c = "" then true
    else !(["CN", "RU", "IR", "KP"].contains c)

/-- Abuseipdb enrichment of one node given the provider response: record
risk score and country, subtract twenty when the hard-coded region
restriction fails, then adjust by the confidence-score thresholds.  The
final_score of none models a missing key, on which the first in-place
subtraction raises and the remaining adjustments are lost while the
recorded risk score and country persist. -/
def _check_abuseipdb (cfg : RiskConfig) (node : Node) (resp : Option AbuseResp) : Node :=
  match resp with
  | none => node
  | some d =>
    let node := { node with risk_score := some d.score,
                            country := some (d.countryCode.getD "Unknown") }
    match node.final_score with
    | none => node
    | some fs =>
      let fs := if !check_region_restriction node then fs - 20 else fs
      let fs :=
        if d.score = 0 then fs + 3
        else if d.score < 20 then fs + 1
        else if d.score > cfg.max_risk_score then fs - 10
        else fs
      { node with final_score := some fs }

/-- Ipapi enrichment of one node given the provider response: record
country and isp, apply the hosting, proxy and mobile penalties enabled
by the behaviour flags, or the clean-ip bonus when none applies. -/
def _check_ipapi (cfg : RiskConfig) (node : Node) (resp : Option IpapiResp) : Node :=
  match resp with
  | none => node
  | some d =>
    if d.failStatus then node
    else
      let node := { node with country := some (d.countryCode.getD "UNK"),
                              isp := some (d.ispName.getD "Unknown") }
      let hostingHit := d.hosting && cfg.exclude_hosting
      let proxyHit := d.proxy && cfg.exclude_proxy
      let mobileHit := d.mobile && cfg.exclude_mobile
      match node.final_score with
      | none =>
        if hostingHit || proxyHit || mobileHit then node
        else { node with risk_score := some 0 }
      | some fs =>
        if hostingHit || proxyHit || mobileHit then
          let fs := if hostingHit then fs - 5 else fs
          let fs := if proxyHit then fs - 3 else fs
          let fs := if mobileHit then fs - 2 else fs
          let rs : Int :=
            max (max (if hostingHit then 50 else 0) (if proxyHit then 60 else 0))
              (if mobileHit then 30 else 0)
          { node with final_score := some fs, risk_score := some rs }
        else { node with risk_score := some 0, final_score := some (fs + 10) }

/-- The literal ipv4 test of check_ip_risk: re.match of four dot-joined
groups of one to three digits against the whole host (the dollar anchor
also accepts one trailing newline). -/
def isIpv4Lit (s : String) : Bool :=
  let cs := s.data
  let cs := match cs.getLast? with
    | some '\n' => cs.dropLast
    | _ => cs
  match splitSubAux (".".data) (cs.length + 1) [] cs with
  | [a, b, c, d] =>
    [a, b, c, d].all (fun g => 1 ≤ g.length && g.length ≤ 3 && g.all Char.isDigit)
  | _ => false

/-- Observable events of the enrichment loop: an external provider call
and the pacing sleep. -/
inductive Ev where
  | call
  | sleep
  deriving DecidableEq

/-- Provider phase of one enrichment iteration: resolve the host (a
literal ipv4 is used directly, otherwise the resolver outcome decides),
and call the active provider when an ip is known; the event records the
external call. -/
def riskProviderPart (cfg : RiskConfig) (prov : String) (env : NodeEnv)
    (node : Node) : Node × List Ev :=
  match (if isIpv4Lit (node.host.getD "") then some (node.host.getD "") else env.dnsIp) with
  | none => (node, [])
  | some _ =>
    if prov = "abuseipdb" then (_check_abuseipdb cfg node env.abuse, [Ev.call])
    else if prov = "ipapi" then (_check_ipapi cfg node env.ipapi, [Ev.call])
    else (node, [])

/-- Region phase of one enrichment iteration, run when the region limit
is enabled and the node has a truthy country: white list then black
list; a non-compliant node is skipped under the filter policy and kept
with its score field reduced by fifty otherwise. -/
def riskRegionPart (region : RegionConfig) (node1 : Node) : Option Node :=
  let countryT :=
    match node1.country with
    | some c => c != ""
    | none => false
  if region.enabled && countryT then
    let country := node1.country.getD ""
    let isAllowed :=
      if !region.allowed_countries.isEmpty && !region.allowed_countries.contains country then
        false
      else if !region.blocked_countries.isEmpty && region.blocked_countries.contains country then
        false
      else true
    if !isAllowed then
      if region.policy = "filter" then none
      else some { node1 with score := node1.score - 50 }
    else some node1
  else some node1

/-- One iteration of the enrichment loop body: the provider phase, then
the region phase, and in every branch the pacing sleep ends the trace
(the filter branch of the source sleeps before skipping the node; every
other branch appends the node and then sleeps). -/
def riskStep (cfg : RiskConfig) (region : RegionConfig) (prov : String) (env : NodeEnv)
    (node : Node) : Option Node × List Ev :=
  let p := riskProviderPart cfg prov env node
  (riskRegionPart region p.1, p.2 ++ [Ev.sleep])

/-- The enrichment loop over the selected prefix, collecting kept nodes
in order together with the event trace. -/
def riskLoop (cfg : RiskConfig) (region : RegionConfig) (prov : String)
    (envs : Nat → NodeEnv) : Nat → List Node → List Node × List Ev
  | _, [] => ([], [])
  | i, n :: ns =>
    let step := riskStep cfg region prov (envs i) n
    let rest := riskLoop cfg region prov envs (i + 1) ns
    match step.1 with
    | some k => (k :: rest.1, step.2 ++ rest.2)
    | none => (rest.1, step.2 ++ rest.2)

/-- Main enrichment entry: when disabled return the input unchanged;
otherwise fall back to the free provider when the keyed provider has no
credential, enrich only the first check_top_nodes entries, append the
untouched remainder, and re-sort. -/
def check_ip_risk (cfg : RiskConfig) (region : RegionConfig) (envs : Nat → NodeEnv)
    (nodes : List Node) : List Node × List Ev :=
  if !cfg.enabled then (nodes, [])
  else
    let prov := if cfg.provider = "abuseipdb" ∧ !cfg.hasApiKey then "ipapi" else cfg.provider
    let target := nodes.take cfg.check_top_nodes
    let unchecked := nodes.drop cfg.check_top_nodes
    let run := riskLoop cfg region prov envs 0 target
    (pySortNodes (run.1 ++ unchecked), run.2)

/-- Output-cap truncation of process_nodes, applied before enrichment. -/
def truncTop (maxOutput : Nat) (l : List Node) : List Node :=
  if l.length > maxOutput then l.take maxOutput else l

/-- Score, sort and truncate: the part of process_nodes between the
probing loop and the enrichment call. -/
def truncAfterScore (maxLatency : Rat) (preferred : List String) (maxOutput : Nat)
    (available : List Node) : List Node :=
  truncTop maxOutput (pySortNodes (available.map (calculate_score maxLatency preferred)))

/-- The tail of process_nodes after the probing loop: score every
available node, sort, truncate to the output cap, enrich, and sort
again. -/
def process_nodes_post (maxLatency : Rat) (preferred : List String) (maxOutput : Nat)
    (cfg : RiskConfig) (region : RegionConfig) (envs : Nat → NodeEnv)
    (available : List Node) : List Node :=
  pySortNodes (check_ip_risk cfg region envs
    (truncAfterScore maxLatency preferred maxOutput available)).1

/-- Pacing property of an event trace: every provider call is
immediately followed by the pacing sleep. -/
def callsPaced : List Ev → Prop
  | [] => True
  | Ev.call :: rest => rest.head? = some Ev.sleep ∧ callsPaced rest
  | Ev.sleep :: rest => callsPaced rest

/-- Full sort key of a node (final score and effective latency); two
nodes with the same rankKey compare equal in the ranking order. -/
def rankKey (n : Node) : Int × Rat := (sortKeyFS n, effLat n)

/-! ### Concrete fixtures used by counterexamples and witnesses. -/

/-- A minimal parsed node. -/
def sampleNode : Node :=
  { url := "ss://one", protocol := "ss", host := some "h", port := some 1, score := 5 }

/-- A second minimal parsed node with a lower base score. -/
def sampleNode2 : Node :=
  { url := "ss://two", protocol := "ss", host := some "k", port := some 2, score := 3 }

/-- A scored node with latency one thousand milliseconds. -/
def nodeLat1000 : Node :=
  { url := "a", protocol := "ss", host := some "h", port := some 1, score := 5,
    latency := some 1000, final_score := some 5 }

/-- A scored node with no recorded latency. -/
def nodeNoLat : Node :=
  { url := "b", protocol := "ss", host := some "h", port := some 1, score := 5,
    latency := none, final_score := some 5 }

/-- A scored node reaching the region check of the enrichment stage. -/
def c1Node : Node :=
  { url := "u", protocol := "vless", host := some "1.2.3.4", port := some 443,
    score := 5, final_score := some 10 }

/-- Enrichment configuration with the keyed provider active. -/
def c1Cfg : RiskConfig := { enabled := true, hasApiKey := true }

/-- Region policy with one blocked country in penalize mode. -/
def c1Region : RegionConfig :=
  { enabled := true, blocked_countries := ["US"], policy := "penalize" }

/-- Provider environment answering with a country that the region policy
blocks and a confidence score that triggers no risk adjustment. -/
def c1Env : NodeEnv := { abuse := some { score := 25, countryCode := some "US" } }

/-! ## Theorems -/

/-- Truthiness of the port slot characterized. -/
theorem portTruthy_true {po : Option Int} (h : portTruthy po = true) :
    ∃ p, po = some p ∧ p ≠ 0 := by
  cases po with
  | none => simp [portTruthy] at h
  | some p => exact ⟨p, rfl, by simpa [portTruthy] using h⟩

/-- A node returned by parse_node carries its input string verbatim. -/
theorem parse_node_url {u : String} {n : Node} (h : parse_node u = some n) : n.url = u := by
  unfold parse_node at h
  split at h
  · exact absurd h (by simp)
  · split at h
    · exact absurd h (by simp)
    · split at h
      · cases h
        rfl
      · exact absurd h (by simp)

/-- Claim C6, counterexample: a trojan uri with port 99999 parses to a
node whose port lies outside the range 1 to 65535, refuting the claimed
range invariant. -/
theorem c6_counterexample :
    (parse_node "trojan://a@b:99999").bind Node.port = some 99999 ∧
      ¬ ((99999 : Int) ≤ 65535) := by
  constructor
  · decide
  · decide

/-- Claim C6, amended: every node returned by parse carries a port that
is some nonzero integer (the truthiness guard discards port zero and a
missing port), but no upper bound and no sign restriction is enforced. -/
theorem c6_amended (s : String) (n : Node) (h : parse_node s = some n) :
    ∃ p, n.port = some p ∧ p ≠ 0 := by
  unfold parse_node at h
  split at h
  · exact absurd h (by simp)
  · split at h
    · exact absurd h (by simp)
    · split at h
      next hguard =>
        cases h
        exact portTruthy_true (Bool.and_elim_right hguard)
      · exact absurd h (by simp)

/-- Claim C6, witness for the amended theorem at a concrete accepted
input. -/
theorem c6_amended_witness :
    ∃ p, ((parse_node "trojan://u@h:8080").getD sampleNode).port = some p ∧ p ≠ 0 :=
  c6_amended "trojan://u@h:8080" ((parse_node "trojan://u@h:8080").getD sampleNode) (by decide)

/-- Claim C8: parse returns none for a string without the scheme arrow,
for a lowercased scheme outside the fixed protocol set, and for every
malformed input on which the dispatched extractor yields a falsy host
or port; the embedding is a total function into Option, reflecting that
parse_node and every sub-parser catch exceptions and return None. -/
theorem c8_scheme_gate (s : String)
    (h : strHasSub "://" s = false ∨
      schemeOf s ∉ ["hysteria2", "hysteria", "vless", "trojan", "vmess", "ss", "ssr"] ∨
      hostTruthy (parseHostPort (schemeOf s) s).1 = false ∨
      portTruthy (parseHostPort (schemeOf s) s).2 = false) :
    parse_node s = none := by
  rcases h with h | h | h | h
  · unfold parse_node
    simp [h]
  · have hps : protocolScore (schemeOf s) = none := by
      unfold protocolScore protocol_scores
      simp only [List.mem_cons, List.not_mem_nil, or_false, not_or] at h
      obtain ⟨h1, h2, h3, h4, h5, h6, h7⟩ := h
      simp [List.find?, beq_eq_false_iff_ne.mpr (Ne.symm h1),
        beq_eq_false_iff_ne.mpr (Ne.symm h2), beq_eq_false_iff_ne.mpr (Ne.symm h3),
        beq_eq_false_iff_ne.mpr (Ne.symm h4), beq_eq_false_iff_ne.mpr (Ne.symm h5),
        beq_eq_false_iff_ne.mpr (Ne.symm h6), beq_eq_false_iff_ne.mpr (Ne.symm h7)]
    unfold parse_node
    split
    · rfl
    · rw [hps]
  · unfold parse_node
    split
    · rfl
    · split
      · rfl
      · rw [if_neg]
        simp [h]
  · unfold parse_node
    split
    · rfl
    · split
      · rfl
      · rw [if_neg]
        simp [h]

/-- Claim C8, witness: a wrong scheme, a string without a scheme arrow,
and a supported but malformed uri (no address part) are all rejected. -/
theorem c8_scheme_gate_witness :
    parse_node "http://x" = none ∧ parse_node "plain text" = none ∧
      parse_node "trojan://nohost" = none :=
  ⟨c8_scheme_gate "http://x" (Or.inr (Or.inl (by decide))),
    c8_scheme_gate "plain text" (Or.inl (by decide)),
    c8_scheme_gate "trojan://nohost" (Or.inr (Or.inr (Or.inl (by decide))))⟩

/-- Every node kept by the dedupe pass re-parses to itself: its stored
url is the original raw string and parse_node is a pure function. -/
theorem dedupe_mem_reparse :
    ∀ (us : List String) (seen : List String) (n : Node),
      n ∈ dedupeAux seen us → parse_node n.url = some n := by
  intro us
  induction us with
  | nil => intro seen n h; simp [dedupeAux] at h
  | cons u rest ih =>
    intro seen n h
    unfold dedupeAux at h
    cases hp : parse_node u with
    | none => rw [hp] at h; exact ih seen n h
    | some m =>
      rw [hp] at h
      by_cases hk : nodeKey m ∈ seen
      · simp only [hk, if_pos] at h
        exact ih seen n h
      · simp only [hk, if_neg, not_false_iff] at h
        rcases List.mem_cons.mp h with rfl | h2
        · rw [parse_node_url hp]; exact hp
        · exact ih _ n h2

/-- Keys of the nodes kept by the dedupe pass: none lies in the seen set
and they are pairwise distinct. -/
theorem dedupe_keys :
    ∀ (us : List String) (seen : List String),
      (∀ n ∈ dedupeAux seen us, nodeKey n ∉ seen) ∧
        (dedupeAux seen us).Pairwise (fun a b => nodeKey a ≠ nodeKey b) := by
  intro us
  induction us with
  | nil => intro seen; simp [dedupeAux]
  | cons u rest ih =>
    intro seen
    unfold dedupeAux
    cases hp : parse_node u with
    | none => exact ih seen
    | some m =>
      by_cases hk : nodeKey m ∈ seen
      · simp only [hk, if_pos]
        exact ih seen
      · simp only [hk, if_neg, not_false_iff]
        obtain ⟨ihNotSeen, ihPw⟩ := ih (nodeKey m :: seen)
        constructor
        · intro n hn
          rcases List.mem_cons.mp hn with rfl | h2
          · exact hk
          · intro hmem
            exact ihNotSeen n h2 (List.mem_cons_of_mem _ hmem)
        · refine List.pairwise_cons.mpr ⟨?_, ihPw⟩
          intro b hb heq
          exact ihNotSeen b hb (heq ▸ List.mem_cons_self _ _)

/-- Feeding back a list of nodes whose urls re-parse to themselves and
whose keys avoid the seen set and are pairwise distinct keeps every one
of them. -/
theorem dedupe_roundtrip :
    ∀ (out : List Node) (seen : List String),
      (∀ n ∈ out, parse_node n.url = some n) →
      (∀ n ∈ out, nodeKey n ∉ seen) →
      out.Pairwise (fun a b => nodeKey a ≠ nodeKey b) →
      dedupeAux seen (out.map (fun n => n.url)) = out := by
  intro out
  induction out with
  | nil => intro seen _ _ _; simp [dedupeAux]
  | cons n rest ih =>
    intro seen hre hseen hpw
    have hn : parse_node n.url = some n := hre n (List.mem_cons_self _ _)
    have hkn : nodeKey n ∉ seen := hseen n (List.mem_cons_self _ _)
    obtain ⟨hhead, hpw2⟩ := List.pairwise_cons.mp hpw
    simp only [List.map_cons]
    unfold dedupeAux
    rw [hn]
    simp only [hkn, if_neg, not_false_iff]
    congr 1
    refine ih (nodeKey n :: seen) (fun m hm => hre m (List.mem_cons_of_mem _ hm)) ?_ hpw2
    intro m hm hmem
    rcases List.mem_cons.mp hmem with he | h2
    · exact hhead m hm he.symm
    · exact hseen m (List.mem_cons_of_mem _ hm) h2

/-- Claim C9: the identity-key deduplication (key protocol, host and
port; first occurrence kept) is idempotent on every list of raw node
strings. -/
theorem c9_dedupe_idempotent (urls : List String) :
    dedupeUrls (dedupeUrls urls) = dedupeUrls urls := by
  unfold dedupeUrls dedupeParsed
  congr 1
  exact dedupe_roundtrip (dedupeAux [] urls) []
    (fun n hn => dedupe_mem_reparse urls [] n hn)
    (fun n _ => List.not_mem_nil _)
    (dedupe_keys urls []).2

/-- Two nodes with equal rank key compare as greater-or-equal. -/
theorem keyGE_of_rankKey_eq {a b : Node} (h : rankKey a = rankKey b) : keyGE a b := by
  unfold rankKey at h
  have h1 : sortKeyFS a = sortKeyFS b := congrArg Prod.fst h
  have h2 : effLat a = effLat b := congrArg Prod.snd h
  exact Or.inr ⟨h1, by rw [h2]⟩

/-- A node strictly above another in the order has a different rank key. -/
theorem rankKey_ne_of_not_keyGE {a b : Node} (h : ¬ keyGE a b) : rankKey a ≠ rankKey b :=
  fun he => h (keyGE_of_rankKey_eq he)

/-- Inserting an element of the key class keeps the class filter intact
with the element in front: every element skipped by the insertion is
strictly greater and so outside the class. -/
theorem orderedInsert_filter_pos (k : Int × Rat) (a : Node) (l : List Node)
    (ha : rankKey a = k) :
    (List.orderedInsert keyGE a l).filter (fun n => decide (rankKey n = k)) =
      a :: l.filter (fun n => decide (rankKey n = k)) := by
  induction l with
  | nil => simp [List.orderedInsert, ha]
  | cons b bs ih =>
    by_cases hge : keyGE a b
    · simp [List.orderedInsert, hge, ha]
    · have hbk : rankKey b ≠ k := by
        intro hbk
        exact rankKey_ne_of_not_keyGE hge (ha.trans hbk.symm)
      simp [List.orderedInsert, hge, hbk, ih]

/-- Inserting an element outside the key class leaves the class filter
unchanged. -/
theorem orderedInsert_filter_neg (k : Int × Rat) (a : Node) (l : List Node)
    (ha : rankKey a ≠ k) :
    (List.orderedInsert keyGE a l).filter (fun n => decide (rankKey n = k)) =
      l.filter (fun n => decide (rankKey n = k)) := by
  induction l with
  | nil => simp [List.orderedInsert, ha]
  | cons b bs ih =>
    by_cases hge : keyGE a b
    · simp [List.orderedInsert, hge, ha]
    · by_cases hbk : rankKey b = k
      · simp [List.orderedInsert, hge, hbk, ih]
      · simp [List.orderedInsert, hge, hbk, ih]

/-- Stability of the ranking sort: the subsequence of any rank-key class
is exactly its subsequence in the input. -/
theorem pySortNodes_filter (k : Int × Rat) (l : List Node) :
    (pySortNodes l).filter (fun n => decide (rankKey n = k)) =
      l.filter (fun n => decide (rankKey n = k)) := by
  induction l with
  | nil => rfl
  | cons x xs ih =>
    show (List.orderedInsert keyGE x (List.insertionSort keyGE xs)).filter _ = _
    by_cases hx : rankKey x = k
    · rw [orderedInsert_filter_pos k x _ hx]
      have := ih
      simp only [pySortNodes] at this
      simp [List.filter, hx, this]
    · rw [orderedInsert_filter_neg k x _ hx]
      have := ih
      simp only [pySortNodes] at this
      simp [List.filter, hx, this]

/-- Claim C7, counterexample: with the sentinel 999 standing in for a
missing latency, an equal-score node with latency 1000 sorts after the
missing-latency node, so missing latency is not placed last. -/
theorem c7_counterexample :
    pySortNodes [nodeLat1000, nodeNoLat] = [nodeNoLat, nodeLat1000] ∧
      nodeNoLat.latency = none ∧ nodeLat1000.latency = some 1000 ∧
      nodeNoLat.final_score = nodeLat1000.final_score := by
  refine ⟨?_, rfl, rfl, rfl⟩
  decide

/-- Claim C7, amended: the ranking sort orders by descending finalScore
with ties by ascending effective latency, where a missing latency is
the sentinel 999 (after equal-score nodes with latency below 999,
before those above); it permutes the input and is stable on every rank
class. -/
theorem c7_amended (l : List Node) (_h : ∀ n ∈ l, (n.final_score).isSome) :
    (pySortNodes l).Sorted keyGE ∧ (pySortNodes l).Perm l ∧
      ∀ k : Int × Rat, (pySortNodes l).filter (fun n => decide (rankKey n = k)) =
        l.filter (fun n => decide (rankKey n = k)) :=
  ⟨List.sorted_insertionSort keyGE l, List.perm_insertionSort keyGE l,
    fun k => pySortNodes_filter k l⟩

/-- Claim C7, witness for the amended theorem on a concrete scored
list. -/
theorem c7_amended_witness : (pySortNodes [nodeLat1000, nodeNoLat]).Sorted keyGE :=
  (c7_amended [nodeLat1000, nodeNoLat] (by decide)).1

/-- Batch pattern of the probing loop: every executed batch took the
minimum of its cap and the remaining pool, where the cap is the
single-pass limit while no available node has been accumulated and 2000
afterwards; the first batch sees the initial state. -/
theorem probeLoop_batches_spec (prober : Node → Option Node) (maxLatency : Rat)
    (minG maxOnce : Nat) :
    ∀ (fuel : Nat) (avail rem : List Node) (tested : Nat),
      (∀ b ∈ (probeLoopAux prober maxLatency minG maxOnce fuel avail rem tested).batches,
          b.size = min (if b.availBefore = 0 then maxOnce else 2000) b.remBefore) ∧
      (∀ b, (probeLoopAux prober maxLatency minG maxOnce fuel avail rem tested).batches.head?
          = some b → b.availBefore = avail.length ∧ b.remBefore = rem.length) := by
  intro fuel
  induction fuel with
  | zero => intro avail rem tested; simp [probeLoopAux]
  | succ fuel ih =>
    intro avail rem tested
    rw [probeLoopAux.eq_2]
    split
    · simp
    · split
      · simp
      · simp only []
        have hsize : (List.take (if avail.length > 0 then 2000 else maxOnce) rem).length
            = min (if avail.length = 0 then maxOnce else 2000) rem.length := by
          rw [List.length_take]
          rcases Nat.eq_zero_or_pos avail.length with hz | hp
          · simp [hz]
          · have h2 : ¬ avail.length = 0 := Nat.pos_iff_ne_zero.mp hp
            simp [hp, h2]
        by_cases hstop :
            tested + (List.take (if avail.length > 0 then 2000 else maxOnce) rem).length ≥ 20000
        · simp only [if_pos hstop]
          refine ⟨?_, ?_⟩
          · intro b hb
            simp only [List.mem_singleton] at hb
            subst hb
            exact hsize
          · intro b hb
            simp only [List.head?_cons, Option.some.injEq] at hb
            subst hb
            exact ⟨rfl, rfl⟩
        · simp only [if_neg hstop]
          refine ⟨?_, ?_⟩
          · intro b hb
            rcases List.mem_cons.mp hb with rfl | h2
            · exact hsize
            · exact (ih _ _ _).1 b h2
          · intro b hb
            simp only [List.head?_cons, Option.some.injEq] at hb
            subst hb
            exact ⟨rfl, rfl⟩

/-- Claim C2, counterexample: with a single-pass cap of 2001, a minimum
guarantee of one and a prober that marks nothing available, the second
batch also probes 2001 nodes, exceeding the claimed fixed cap of 2000
for batches after the first. -/
theorem c2_counterexample :
    ((process_nodes_loop (fun _ => none) 500 1 2001 (List.replicate 4002 sampleNode)).batches.map
      (fun b => b.size)) = [2001, 2001] ∧ ¬ ((2001 : Nat) ≤ 2000) := by
  constructor
  · unfold process_nodes_loop
    rw [List.length_replicate]
    rw [show (4002 + 1 : Nat) = Nat.succ 4002 from rfl, probeLoopAux.eq_2]
    norm_num [List.take_replicate, List.drop_replicate, List.length_replicate, keepResult]
    rw [show (4002 : Nat) = Nat.succ 4001 from rfl, probeLoopAux.eq_2]
    norm_num [List.take_replicate, List.drop_replicate, List.length_replicate, keepResult]
    rw [show (4001 : Nat) = Nat.succ 4000 from rfl, probeLoopAux.eq_2]
    norm_num
  · decide

/-- Claim C2, amended: the first batch is capped at the single-pass
limit (max_test_nodes); a later batch is capped at 2000 exactly when at
least one available node has been accumulated before it, and a batch
that follows only unproductive batches is capped at the single-pass
limit again. -/
theorem c2_amended (prober : Node → Option Node) (maxLatency : Rat)
    (minG maxOnce : Nat) (pool : List Node) :
    (∀ b ∈ (process_nodes_loop prober maxLatency minG maxOnce pool).batches,
        b.size = min (if b.availBefore = 0 then maxOnce else 2000) b.remBefore) ∧
    (∀ b, (process_nodes_loop prober maxLatency minG maxOnce pool).batches.head? = some b →
        b.availBefore = 0 ∧ b.remBefore = pool.length) := by
  obtain ⟨h1, h2⟩ :=
    probeLoop_batches_spec prober maxLatency minG maxOnce (pool.length + 1) [] pool 0
  exact ⟨h1, fun b hb => by simpa using h2 b hb⟩

/-- Claim C2, witness for the amended theorem: the first batch of a
concrete two-node run with cap one. -/
theorem c2_amended_witness :
    (⟨0, 2, 1⟩ : BatchInfo).size =
      min (if (⟨0, 2, 1⟩ : BatchInfo).availBefore = 0 then 1 else 2000)
        (⟨0, 2, 1⟩ : BatchInfo).remBefore :=
  (c2_amended (fun _ => none) 500 5 1 [sampleNode, sampleNode2]).1 ⟨0, 2, 1⟩ (by decide)

/-- Total probed never exceeds the initial count plus the remaining
pool. -/
theorem probeLoop_tested_le (prober : Node → Option Node) (maxLatency : Rat)
    (minG maxOnce : Nat) :
    ∀ (fuel : Nat) (avail rem : List Node) (tested : Nat),
      (probeLoopAux prober maxLatency minG maxOnce fuel avail rem tested).tested
        ≤ tested + rem.length := by
  intro fuel
  induction fuel with
  | zero => intro avail rem tested; simp [probeLoopAux]
  | succ fuel ih =>
    intro avail rem tested
    rw [probeLoopAux.eq_2]
    split
    · simp
    · split
      · simp
      · simp only []
        by_cases hstop :
            tested + (List.take (if avail.length > 0 then 2000 else maxOnce) rem).length ≥ 20000
        · simp only [if_pos hstop]
          simp only [List.length_take]
          omega
        · simp only [if_neg hstop]
          have h1 := ih
            (avail ++ (List.take (if avail.length > 0 then 2000 else maxOnce) rem).filterMap
              (fun n => keepResult maxLatency (prober n)))
            (List.drop (if avail.length > 0 then 2000 else maxOnce) rem)
            (tested + (List.take (if avail.length > 0 then 2000 else maxOnce) rem).length)
          refine le_trans h1 ?_
          simp only [List.length_take, List.length_drop]
          omega

/-- Claim C3: for every candidate pool and every deterministic prober,
the loop probes at most the maximum of the hard ceiling 20000 and the
pool size, and from any state that already meets the minimum guarantee
no batch is launched and the state is returned as is. -/
theorem c3_loop_bounds (prober : Node → Option Node) (maxLatency : Rat)
    (minG maxOnce : Nat) (pool : List Node) :
    (process_nodes_loop prober maxLatency minG maxOnce pool).tested ≤ max 20000 pool.length ∧
    ∀ (fuel : Nat) (avail rem : List Node) (tested : Nat), avail.length ≥ minG →
      probeLoopAux prober maxLatency minG maxOnce fuel avail rem tested
        = ⟨avail, tested, []⟩ := by
  constructor
  · have h := probeLoop_tested_le prober maxLatency minG maxOnce (pool.length + 1) [] pool 0
    simp only [Nat.zero_add] at h
    exact le_trans h (le_max_right _ _)
  · intro fuel avail rem tested hge
    cases fuel with
    | zero => rw [probeLoopAux]
    | succ f =>
      rw [probeLoopAux.eq_2]
      simp [hge]

/-- Claim C3, witness: a state already holding one available node with a
guarantee of one returns unchanged without launching a batch. -/
theorem c3_loop_bounds_witness :
    probeLoopAux (fun _ => none) 500 1 2001 5 [sampleNode] [sampleNode2] 7
      = ⟨[sampleNode], 7, []⟩ :=
  (c3_loop_bounds (fun _ => none) 500 1 2001 []).2 5 [sampleNode] [sampleNode2] 7 (by decide)

/-- The provider phase emits no event or exactly one call event. -/
theorem riskProviderPart_snd (cfg : RiskConfig) (prov : String) (env : NodeEnv) (node : Node) :
    (riskProviderPart cfg prov env node).2 = [] ∨
      (riskProviderPart cfg prov env node).2 = [Ev.call] := by
  unfold riskProviderPart
  split
  · exact Or.inl rfl
  · split
    · exact Or.inr rfl
    · split
      · exact Or.inr rfl
      · exact Or.inl rfl

/-- Pacing is preserved by a leading sleep. -/
theorem callsPaced_sleep_cons (t : List Ev) (h : callsPaced t) : callsPaced (Ev.sleep :: t) := h

/-- Pacing is preserved by a leading call-sleep pair. -/
theorem callsPaced_call_sleep (t : List Ev) (h : callsPaced t) :
    callsPaced (Ev.call :: Ev.sleep :: t) := ⟨rfl, h⟩

/-- The whole enrichment loop trace is paced: every provider call is
immediately followed by a sleep, whatever the provider responses,
resolver outcomes and region decisions are. -/
theorem riskLoop_paced (cfg : RiskConfig) (region : RegionConfig) (prov : String)
    (envs : Nat → NodeEnv) : ∀ (ns : List Node) (i : Nat),
    callsPaced (riskLoop cfg region prov envs i ns).2 := by
  intro ns
  induction ns with
  | nil => intro i; exact trivial
  | cons n ns ih =>
    intro i
    unfold riskLoop
    have htr : (riskStep cfg region prov (envs i) n).2
        = (riskProviderPart cfg prov (envs i) n).2 ++ [Ev.sleep] := rfl
    rcases hcase : (riskStep cfg region prov (envs i) n).1 with - | k <;>
      simp only [hcase] <;>
      rcases riskProviderPart_snd cfg prov (envs i) n with hp | hp <;>
        rw [htr, hp] <;>
        first
          | exact callsPaced_sleep_cons _ (ih (i + 1))
          | exact callsPaced_call_sleep _ (ih (i + 1))

/-- Claim C5: every iteration of the enrichment loop ends its trace with
the pacing sleep (also when the provider call fails, since the response
is arbitrary and a failing response is the none case, and also when the
node is skipped by the region filter), and on the whole trace every
external call is immediately followed by the pacing sleep. -/
theorem c5_pacing :
    (∀ (cfg : RiskConfig) (region : RegionConfig) (prov : String) (env : NodeEnv) (node : Node),
        ∃ pre, (riskStep cfg region prov env node).2 = pre ++ [Ev.sleep]) ∧
    (∀ (cfg : RiskConfig) (region : RegionConfig) (envs : Nat → NodeEnv) (nodes : List Node),
        callsPaced (check_ip_risk cfg region envs nodes).2) := by
  constructor
  · intro cfg region prov env node
    exact ⟨(riskProviderPart cfg prov env node).2, rfl⟩
  · intro cfg region envs nodes
    unfold check_ip_risk
    split
    · exact trivial
    · exact riskLoop_paced cfg region _ envs _ 0

/-- Sorting preserves the length. -/
theorem pySortNodes_length (l : List Node) : (pySortNodes l).length = l.length :=
  (List.perm_insertionSort keyGE l).length_eq

/-- Sorting preserves membership. -/
theorem pySortNodes_mem {n : Node} {l : List Node} (h : n ∈ l) : n ∈ pySortNodes l :=
  ((List.perm_insertionSort keyGE l).mem_iff).mpr h

/-- The enrichment loop never grows the node list. -/
theorem riskLoop_fst_length (cfg : RiskConfig) (region : RegionConfig) (prov : String)
    (envs : Nat → NodeEnv) : ∀ (ns : List Node) (i : Nat),
    (riskLoop cfg region prov envs i ns).1.length ≤ ns.length := by
  intro ns
  induction ns with
  | nil => intro i; simp [riskLoop]
  | cons n ns ih =>
    intro i
    unfold riskLoop
    rcases hcase : (riskStep cfg region prov (envs i) n).1 with - | k <;> simp only [hcase]
    · exact Nat.le_succ_of_le (ih (i + 1))
    · simpa using ih (i + 1)

/-- One iteration makes at most one external call. -/
theorem riskStep_call_count (cfg : RiskConfig) (region : RegionConfig) (prov : String)
    (env : NodeEnv) (node : Node) :
    (riskStep cfg region prov env node).2.count Ev.call ≤ 1 := by
  have htr : (riskStep cfg region prov env node).2
      = (riskProviderPart cfg prov env node).2 ++ [Ev.sleep] := rfl
  rcases riskProviderPart_snd cfg prov env node with hp | hp <;> rw [htr, hp] <;> decide

/-- The loop makes at most one external call per processed node. -/
theorem riskLoop_call_count (cfg : RiskConfig) (region : RegionConfig) (prov : String)
    (envs : Nat → NodeEnv) : ∀ (ns : List Node) (i : Nat),
    (riskLoop cfg region prov envs i ns).2.count Ev.call ≤ ns.length := by
  intro ns
  induction ns with
  | nil => intro i; simp [riskLoop]
  | cons n ns ih =>
    intro i
    unfold riskLoop
    rcases hcase : (riskStep cfg region prov (envs i) n).1 with - | k <;>
      simp only [hcase, List.count_append, List.length_cons] <;>
      have h1 := riskStep_call_count cfg region prov (envs i) n <;>
      have h2 := ih (i + 1) <;>
      omega

/-- Enrichment never grows the candidate list. -/
theorem check_ip_risk_length (cfg : RiskConfig) (region : RegionConfig)
    (envs : Nat → NodeEnv) (nodes : List Node) :
    (check_ip_risk cfg region envs nodes).1.length ≤ nodes.length := by
  unfold check_ip_risk
  split
  · simp
  · simp only []
    rw [pySortNodes_length, List.length_append]
    have h1 := riskLoop_fst_length cfg region
      (if cfg.provider = "abuseipdb" ∧ !cfg.hasApiKey then "ipapi" else cfg.provider)
      envs (nodes.take cfg.check_top_nodes) 0
    have h2 : (nodes.take cfg.check_top_nodes).length + (nodes.drop cfg.check_top_nodes).length
        = nodes.length := by
      simp only [List.length_take, List.length_drop]
      omega
    omega

/-- Enrichment calls the provider at most check_top_nodes times. -/
theorem check_ip_risk_calls (cfg : RiskConfig) (region : RegionConfig)
    (envs : Nat → NodeEnv) (nodes : List Node) :
    (check_ip_risk cfg region envs nodes).2.count Ev.call ≤ cfg.check_top_nodes := by
  unfold check_ip_risk
  split
  · simp
  · simp only []
    refine le_trans (riskLoop_call_count cfg region _ envs _ 0) ?_
    simp only [List.length_take]
    omega

/-- Every node beyond the enrichment window appears in the enrichment
result (unchanged, since the loop never touches it). -/
theorem check_ip_risk_unchecked_mem (cfg : RiskConfig) (region : RegionConfig)
    (envs : Nat → NodeEnv) (nodes : List Node) (n : Node)
    (h : n ∈ nodes.drop cfg.check_top_nodes) :
    n ∈ (check_ip_risk cfg region envs nodes).1 := by
  unfold check_ip_risk
  split
  · exact List.mem_of_mem_drop h
  · simp only []
    exact pySortNodes_mem (List.mem_append_right _ h)

/-- Truncation respects the output cap. -/
theorem truncTop_length_le (m : Nat) (l : List Node) : (truncTop m l).length ≤ m := by
  unfold truncTop
  split
  · simp only [List.length_take]
    omega
  · omega

/-- Claim C4: the final output never exceeds the output cap (truncation
happens before enrichment and nothing re-expands the list, so a node
dropped by filter policy is not backfilled), the provider is queried at
most check_top_nodes times, and every truncated entry beyond the
enrichment window passes through to the enrichment result unchanged. -/
theorem c4_truncation_bounds (maxLatency : Rat) (preferred : List String) (maxOutput : Nat)
    (cfg : RiskConfig) (region : RegionConfig) (envs : Nat → NodeEnv)
    (available : List Node) :
    (process_nodes_post maxLatency preferred maxOutput cfg region envs available).length
        ≤ maxOutput ∧
    (check_ip_risk cfg region envs
        (truncAfterScore maxLatency preferred maxOutput available)).2.count Ev.call
        ≤ cfg.check_top_nodes ∧
    ∀ n ∈ (truncAfterScore maxLatency preferred maxOutput available).drop cfg.check_top_nodes,
      n ∈ (check_ip_risk cfg region envs
        (truncAfterScore maxLatency preferred maxOutput available)).1 := by
  refine ⟨?_, check_ip_risk_calls cfg region envs _,
    fun n hn => check_ip_risk_unchecked_mem cfg region envs _ n hn⟩
  unfold process_nodes_post
  rw [pySortNodes_length]
  refine le_trans (check_ip_risk_length cfg region envs _) ?_
  unfold truncAfterScore
  exact truncTop_length_le maxOutput _

/-- Claim C4, witness: a concrete node below the enrichment cutoff
appears in the enrichment result. -/
theorem c4_truncation_bounds_witness :
    calculate_score 500 [] sampleNode2 ∈
      (check_ip_risk { enabled := true, hasApiKey := true, check_top_nodes := 1 } {}
        (fun _ => {}) (truncAfterScore 500 [] 2 [sampleNode, sampleNode2])).1 :=
  (c4_truncation_bounds 500 [] 2 { enabled := true, hasApiKey := true, check_top_nodes := 1 }
    {} (fun _ => {}) [sampleNode, sampleNode2]).2.2 (calculate_score 500 [] sampleNode2)
    (by decide)

/-- Claim C1: evaluation at the failing input.  Under penalize policy a
non-compliant node is kept, its score field drops by fifty, but the
finalScore that the ranking sorts by is unchanged (the source mutates
the dead score key instead of final_score); under filter policy the
node is dropped. -/
theorem c1_penalize_dead_field :
    ((check_ip_risk c1Cfg c1Region (fun _ => c1Env) [c1Node]).1.map
        (fun n => (n.final_score, n.score)) = [(some 10, -45)]) ∧
      (check_ip_risk c1Cfg { c1Region with policy := "filter" } (fun _ => c1Env) [c1Node]).1
        = [] := by
  constructor <;> decide

/-- Claim C10: for every successful abuseipdb response, the final score
moves by exactly minus twenty when the reported country is in the
hard-coded set CN, RU, IR, KP (independently of any region_limit
configuration, which this helper never reads), plus the
confidence-score adjustment. -/
theorem c10_hardcoded_country_penalty (cfg : RiskConfig) (node : Node) (d : AbuseResp)
    (fs : Int) (h : node.final_score = some fs) :
    (_check_abuseipdb cfg node (some d)).final_score =
      some (fs +
        (if d.countryCode.getD "Unknown" ∈ ["CN", "RU", "IR", "KP"] then -20 else 0) +
        (if d.score = 0 then 3 else if d.score < 20 then 1
          else if d.score > cfg.max_risk_score then -10 else 0)) := by
  obtain ⟨url, protocol, host, port, score, status, latency, nfs, risk, country, isp⟩ := node
  simp only at h
  subst h
  unfold _check_abuseipdb check_region_restriction
  dsimp only
  by_cases hmem : d.countryCode.getD "Unknown" ∈ ["CN", "RU", "IR", "KP"]
  · have hne : d.countryCode.getD "Unknown" ≠ "" := by
      intro he
      rw [he] at hmem
      simp at hmem
    have hcon : (["CN", "RU", "IR", "KP"].contains (d.countryCode.getD "Unknown")) = true :=
      List.elem_iff.mpr hmem
    rw [if_neg hne, hcon, if_pos hmem]
    norm_num
    split_ifs <;> omega
  · have hcon : (["CN", "RU", "IR", "KP"].contains (d.countryCode.getD "Unknown")) = false := by
      rw [Bool.eq_false_iff]
      intro hc
      exact hmem (List.elem_iff.mp hc)
    have hrr : (if d.countryCode.getD "Unknown" = "" then true
        else !(["CN", "RU", "IR", "KP"].contains (d.countryCode.getD "Unknown"))) = true := by
      by_cases hne : d.countryCode.getD "Unknown" = ""
      · rw [if_pos hne]
      · rw [if_neg hne, hcon]
        rfl
    rw [hrr, if_neg hmem]
    norm_num
    split_ifs <;> omega

/-- Claim C10, witness at a concrete blocked-country response. -/
theorem c10_hardcoded_country_penalty_witness :
    (_check_abuseipdb { enabled := true } c1Node
        (some { score := 25, countryCode := some "CN" })).final_score =
      some (10 +
        (if (({ score := 25, countryCode := some "CN" } : AbuseResp).countryCode).getD "Unknown"
            ∈ ["CN", "RU", "IR", "KP"] then -20 else 0) +
        (if ({ score := 25, countryCode := some "CN" } : AbuseResp).score = 0 then 3
          else if ({ score := 25, countryCode := some "CN" } : AbuseResp).score < 20 then 1
          else if ({ score := 25, countryCode := some "CN" } : AbuseResp).score
              > ({ enabled := true } : RiskConfig).max_risk_score then -10 else 0)) :=
  c10_hardcoded_country_penalty { enabled := true } c1Node
    { score := 25, countryCode := some "CN" } 10 rfl

end NQF
